import Mathlib

/-!
# Verification of the ks-devops `devopsOperator` core

Shallow embedding of `pkg/models/devops/devops.go`.  Stateful Go code is
embedded as pure functions: the resource store and the remote engine client
are external collaborators, so every call to them is a parameter of the
embedded function (an `Except`/`Option` value holding what the collaborator
returned).  The object eventually handed to a store `Update` call models the
stored value after the operation, since a Kubernetes update replaces the
whole object.  Goroutine fan-out is embedded by an explicit termination
condition (derived from the `sync.WaitGroup` and channel-capacity discipline
of the source) plus a delivery-order parameter constrained, in each theorem,
to be a permutation of the pairs the worker goroutines send.
-/

namespace KsDevops

/-! ## Data model -/

/-- Modelled from the spec: a run-graph node fetched from the remote engine
(`devops.PipelineRunNodes`; the type declaration lives outside `src/`).  The
aggregator reads only its identifier (`v.ID` at devops.go:643), so the model
keeps the identifier and treats the remaining serialized fields as opaque. -/
structure RunNode where
  ID : String
deriving DecidableEq, Repr

/-- Modelled from the spec: one step record fetched per node
(`devops.NodeSteps`, declared outside `src/`); opaque payload. -/
structure RunStep where
  ID : String
deriving DecidableEq, Repr

/-- Modelled from the spec: the node-detail result shape
(`devops.NodesDetail`, declared outside `src/`): the deep-copied node fields
plus a steps list that starts empty after the marshal/unmarshal round trip
(devops.go:623-624) and is filled by appending delivered step sets. -/
structure NodesDetail where
  node : RunNode
  Steps : List RunStep
deriving DecidableEq, Repr

/-- devops.go:52 `channelMaxCapacity = 100`, the buffer size of the
fan-out result channel. -/
def channelMaxCapacity : Nat := 100

/-- Possible outcomes of running `GetNodesDetail`: a normal return value, an
error return, a deadlock (the call never returns), or a runtime panic. -/
inductive ExecOutcome (α : Type) where
  | ok (a : α)
  | err (e : String)
  | deadlock
  | panicked
deriving DecidableEq, Repr

/-- One drain iteration of the loop at devops.go:649-653:
`nodesDetails[p.Id].Steps = append(nodesDetails[p.Id].Steps, p.Steps...)`.
`none` models the index-out-of-range panic Go would raise. -/
def appendStepsAt : List NodesDetail → Nat → List RunStep → Option (List NodesDetail)
  | [], _, _ => none
  | d :: rest, 0, s => some ({ d with Steps := d.Steps ++ s } :: rest)
  | d :: rest, i + 1, s => (appendStepsAt rest i s).map (fun r => d :: r)

/-- The channel-drain loop at devops.go:649-653, processing the delivered
`(index, steps)` pairs in delivery order. -/
def drainChannel : List NodesDetail → List (Nat × List RunStep) → Option (List NodesDetail)
  | ds, [] => some ds
  | ds, p :: rest =>
    match appendStepsAt ds p.1 p.2 with
    | some ds2 => drainChannel ds2 rest
    | none => none

/-- The pairs the worker goroutines of devops.go:631-644 send on `stepChan`,
in spawn order: iteration `i` sends `(i, steps)` when `GetNodeSteps` for the
node's identifier succeeds and sends nothing when it fails.  `k` is the index
of the first remaining iteration. -/
def sentPairsFrom (fetchSteps : String → Option (List RunStep)) :
    Nat → List RunNode → List (Nat × List RunStep)
  | _, [] => []
  | k, n :: rest =>
    match fetchSteps n.ID with
    | some s => (k, s) :: sentPairsFrom fetchSteps (k + 1) rest
    | none => sentPairsFrom fetchSteps (k + 1) rest

/-- All pairs sent on the channel during one `GetNodesDetail` call. -/
def sentPairs (fetchSteps : String → Option (List RunStep)) (nodes : List RunNode) :
    List (Nat × List RunStep) :=
  sentPairsFrom fetchSteps 0 nodes

/-- The steps delivered for index `j`, concatenated in delivery order. -/
def deliveredAt (j : Nat) : List (Nat × List RunStep) → List RunStep
  | [] => []
  | p :: rest => if p.1 == j then p.2 ++ deliveredAt j rest else deliveredAt j rest

/-- `GetNodesDetail` (devops.go:612-656).  `respNodes` is what the node-listing
call returned; `fetchSteps` is what the per-node `GetNodeSteps` call returns
for a node identifier (`none` = the call failed); `deliv` is the order in
which the sent pairs appear on the channel.

Termination analysis of the source, reflected in the `if` condition:
each loop iteration runs `wg.Add(1)` and spawns a goroutine that calls
`wg.Done()` only after a successful fetch *and* a channel send
(devops.go:633-643); a failed fetch returns early without `wg.Done()`, and the
channel (capacity 100) is only drained after `wg.Wait()` returns, so a send
beyond 100 blocks forever.  Hence `wg.Wait()` (devops.go:646) returns iff
every fetch succeeds and there are at most `channelMaxCapacity` nodes;
otherwise the call never returns (`deadlock`). -/
def GetNodesDetail (respNodes : Except String (List RunNode))
    (fetchSteps : String → Option (List RunStep))
    (deliv : List (Nat × List RunStep)) : ExecOutcome (List NodesDetail) :=
  match respNodes with
  | .error e => .err e
  | .ok nodes =>
    if (∀ n ∈ nodes, (fetchSteps n.ID).isSome) ∧ nodes.length ≤ channelMaxCapacity then
      match drainChannel (nodes.map fun n => { node := n, Steps := [] }) deliv with
      | some ds => .ok ds
      | none => .panicked
    else .deadlock

/-! ## ListDevOpsProject (devops.go:261-280) -/

/-- A DevOps project resource; only identity matters for pagination. -/
structure DevOpsProject where
  name : String
deriving DecidableEq, Repr

/-- `api.ListResult`.  `Items = none` models a nil Go slice,
`Items = some l` a non-nil slice holding `l`. -/
structure ListResult where
  TotalItems : Nat
  Items : Option (List DevOpsProject)
deriving DecidableEq, Repr

/-- The smallest Go `int` (int64) value, -2^63. -/
def int64Min : Int := -9223372036854775808

/-- The largest Go `int` (int64) value, 2^63 - 1. -/
def int64Max : Int := 9223372036854775807

/-- Go `int` (int64) two's-complement arithmetic: reduce into
`[int64Min, int64Max]`, congruent modulo 2^64. -/
def wrap64 (x : Int) : Int :=
  (x - int64Min) % 18446744073709551616 + int64Min

/-- Go `int` addition: wraps on overflow instead of being exact. -/
def goAdd (a b : Int) : Int := wrap64 (a + b)

/-- Go `int` subtraction: wraps on overflow instead of being exact. -/
def goSub (a b : Int) : Int := wrap64 (a - b)

/-- The slice-and-wrap tail of `ListDevOpsProject` (devops.go:275-279) after
`limit` has been rewritten by the clamp at devops.go:272-274.  The Go slice
expression `result[offset : offset+limit]` computes `offset+limit` with
wrapping int64 arithmetic (`goAdd`) and panics unless
`0 ≤ offset ≤ offset+limit ≤ len(result)`; the panic is modelled as `none`.
(Whenever the check passes at this call site the high bound is at most
`len(result)` — the not-clamped branch requires the same wrapped sum to be
at most the length — so the capacity of `result` never matters.)  The slice
is nil only when `result` itself is nil (no project), and then
devops.go:276-278 replaces it by an explicit empty non-nil slice, so `Items`
is always `some`. -/
def listWindow (projects : List DevOpsProject) (limit offset : Int) :
    Option (ListResult × Option String) :=
  if 0 ≤ offset ∧ offset ≤ goAdd offset limit ∧
      goAdd offset limit ≤ (projects.length : Int) then
    some ({ TotalItems := projects.length,
            Items := some ((projects.drop offset.toNat).take
              (goAdd offset limit - offset).toNat) }, none)
  else
    none

/-- `ListDevOpsProject` (devops.go:261-280).  `storeResult` is what the
resource-store list call returned.  The clamp condition at devops.go:272
computes `limit+offset` and the clamped value `len(result)-offset` with
wrapping int64 arithmetic (`goAdd`/`goSub`), so a huge representable `limit`
can wrap the sum negative, skip the clamp, and panic in the slice
expression.  Note devops.go:263-265: on a store error the function returns
the zero `api.ListResult` together with a nil error. -/
def ListDevOpsProject (storeResult : Except String (List DevOpsProject))
    (limit offset : Int) : Option (ListResult × Option String) :=
  match storeResult with
  | .error _ => some ({ TotalItems := 0, Items := none }, none)
  | .ok projects =>
    listWindow projects
      (if limit = -1 ∨ goAdd limit offset > (projects.length : Int) then
        goSub (projects.length : Int) offset
       else limit)
      offset

/-! ## Pipeline objects and the Jenkinsfile contract
(devops.go:312-333, 336-360) -/

/-- An annotation map (Go `map[string]string`); a nil map behaves like the
empty list here because the source initializes a nil map before every write
(devops.go:342-344). -/
def setAnno (m : List (String × String)) (k v : String) : List (String × String) :=
  match m with
  | [] => [(k, v)]
  | (k', v') :: rest => if k' = k then (k, v) :: rest else (k', v') :: setAnno rest k v

/-- Annotation lookup (Go map indexing, absent key gives `none`). -/
def getAnno (m : List (String × String)) (k : String) : Option String :=
  match m with
  | [] => none
  | (k', v) :: rest => if k' = k then some v else getAnno rest k

/-- The target of the `Spec.Pipeline` pointer (`v1alpha3.NoScmPipeline`,
declared outside `src/`); the operator code touches only its `Jenkinsfile`
field. -/
structure PipelineSpecDetail where
  Jenkinsfile : String
deriving DecidableEq, Repr

/-- `v1alpha3.PipelineSpec`: `Pipeline` is a pointer, `none` models nil. -/
structure PipelineSpec where
  Pipeline : Option PipelineSpecDetail
deriving DecidableEq, Repr

/-- A `v1alpha3.Pipeline` resource restricted to the fields the operator
reads or writes. -/
structure Pipeline where
  name : String
  ResourceVersion : String
  Annotations : List (String × String)
  Spec : PipelineSpec
deriving DecidableEq, Repr

/-- The Jenkinsfile value a stored pipeline carries in its spec: absent
when the spec has no nested pipeline section. -/
def jenkinsfileValue (p : Pipeline) : Option String :=
  p.Spec.Pipeline.map (fun sp => sp.Jenkinsfile)

/-- Modelled from the spec: the Jenkinsfile edit-mode annotation values
`raw`/`json` (`v1alpha3` constants, declared outside `src/`). -/
def PipelineJenkinsfileEditModeJSON : String := "json"

/-- Modelled from the spec: the `raw` edit-mode constant. -/
def PipelineJenkinsfileEditModeRaw : String := "raw"

/-- Modelled from the spec: the edit-mode annotation key (`v1alpha3`
constant outside `src/`; only its distinctness from the value key matters). -/
def PipelineJenkinsfileEditModeAnnoKey : String :=
  "pipeline.devops.kubesphere.io/jenkinsfile-edit-mode"

/-- Modelled from the spec: the Jenkinsfile-value annotation key. -/
def PipelineJenkinsfileValueAnnoKey : String :=
  "pipeline.devops.kubesphere.io/jenkinsfile"

/-- `UpdatePipelineObj` (devops.go:312-333).  `projectResult` is the project
`Get`, `latestResult` the `Get` of the currently stored pipeline, `pipeline`
the caller-supplied object.  The returned `.ok` value is the object handed to
the store `Update` call, i.e. the stored value after the update (a Kubernetes
update replaces the whole object). -/
def UpdatePipelineObj (projectResult : Except String Unit)
    (latestResult : Except String Pipeline) (pipeline : Pipeline) :
    Except String Pipeline :=
  match projectResult with
  | .error e => .error e
  | .ok _ =>
    match latestResult with
    | .error e => .error ("cannot found pipeline, error: " ++ e)
    | .ok latestPipe =>
      let p1 := { pipeline with ResourceVersion := latestPipe.ResourceVersion }
      let p2 :=
        match p1.Spec.Pipeline, latestPipe.Spec.Pipeline with
        | some sp, some lp =>
          { p1 with Spec := { p1.Spec with Pipeline := some { sp with Jenkinsfile := lp.Jenkinsfile } } }
        | _, _ => p1
      .ok p2

/-- `UpdateJenkinsfile` (devops.go:336-360) for an existing pipeline
`stored`.  Returns `(err, storeAfter)`: `storeAfter` is the stored value
after the call — the object handed to `Update` when a write happens, and
`stored` unchanged when the function returns before calling `Update`
(the `default` branch at devops.go:354-356).  The store `Update` itself is
assumed to succeed. -/
def UpdateJenkinsfile (stored : Pipeline) (mode jenkinsfile : String) :
    Option String × Pipeline :=
  let p := { stored with
             Annotations := setAnno stored.Annotations PipelineJenkinsfileEditModeAnnoKey mode }
  if mode = PipelineJenkinsfileEditModeJSON then
    (none, { p with
             Annotations := setAnno p.Annotations PipelineJenkinsfileValueAnnoKey jenkinsfile })
  else if mode = PipelineJenkinsfileEditModeRaw then
    (none,
      match p.Spec.Pipeline with
      | some sp => { p with Spec := { p.Spec with Pipeline := some { sp with Jenkinsfile := jenkinsfile } } }
      | none => p)
  else
    (some ("invalid edit mode: " ++ mode), stored)

/-! ## ListPipelineObj candidate list (devops.go:362-387) -/

/-- A fetched pipeline as seen by the type filter of `ListPipelineObj`
(`Spec.Type` compared as a string at devops.go:380). -/
structure PipelineSummary where
  name : String
  pType : String
deriving DecidableEq, Repr

/-- The `continue` condition of the loop at devops.go:379-384:
skip the pipeline iff a type filter exists and the pipeline's type differs. -/
def skipsTypeFilter (typeFilter : Option String) (p : PipelineSummary) : Bool :=
  match typeFilter with
  | some t => p.pType != t
  | none => false

/-- The entry list `ListPipelineObj` hands to the generic
`DefaultList` routine (devops.go:377-386): it starts from
`make([]runtime.Object, len(pipelines.Items))` — a slice already holding one
nil entry (`none`) per fetched pipeline — and appends each kept pipeline. -/
def listPipelineObjCandidates (items : List PipelineSummary)
    (typeFilter : Option String) : List (Option PipelineSummary) :=
  items.foldl
    (fun acc p => if skipsTypeFilter typeFilter p then acc else acc ++ [some p])
    (List.replicate items.length none)

/-! ## Request adapter and proxy method overrides
(devops.go:145-156, 508-529, 875-883) -/

/-- The inbound request fields the adapter forwards. -/
structure HttpRequest where
  Method : String
  Header : List (String × String)
  Body : Option String
  Url : String
deriving DecidableEq, Repr

/-- `devops.HttpParameters`, the parameter shape the remote engine client
expects. -/
structure HttpParameters where
  Method : String
  Header : List (String × String)
  Body : Option String
  Url : String
deriving DecidableEq, Repr

/-- `convertToHttpParameters` (devops.go:145-156): field-by-field copy of the
inbound request. -/
def convertToHttpParameters (req : HttpRequest) : HttpParameters :=
  { Method := req.Method, Header := req.Header, Body := req.Body, Url := req.Url }

/-- `http.MethodPut`. -/
def MethodPut : String := "PUT"

/-- `http.MethodGet`. -/
def MethodGet : String := "GET"

/-- The parameters `StopPipeline` (devops.go:508-518) hands to the client:
it sets `req.Method = http.MethodPut` (devops.go:510) before adapting. -/
def stopPipelineParams (req : HttpRequest) : HttpParameters :=
  convertToHttpParameters { req with Method := MethodPut }

/-- The parameters `ReplayPipeline` (devops.go:520-529) hands to the client:
the request is adapted as-is, with no method override. -/
def replayPipelineParams (req : HttpRequest) : HttpParameters :=
  convertToHttpParameters req

/-- The parameters `StopBranchPipeline` (devops.go:680-690) hands to the
client: it sets `req.Method = http.MethodPut` (devops.go:682). -/
def stopBranchPipelineParams (req : HttpRequest) : HttpParameters :=
  convertToHttpParameters { req with Method := MethodPut }

/-- The parameters `ReplayBranchPipeline` (devops.go:692-701) hands to the
client: no method override. -/
def replayBranchPipelineParams (req : HttpRequest) : HttpParameters :=
  convertToHttpParameters req

/-- The parameters `GetSCMServers` (devops.go:875-883) hands to the client:
it sets `req.Method = http.MethodGet` (devops.go:877). -/
def getSCMServersParams (req : HttpRequest) : HttpParameters :=
  convertToHttpParameters { req with Method := MethodGet }

/-! ## Input-step request body rewriting (devops.go:1038-1067) -/

/-- One `devops.CheckPlayloadParameters` entry (declared outside `src/`);
opaque name/value payload. -/
structure CheckPlayloadParameters where
  name : String
  value : String
deriving DecidableEq, Repr

/-- Modelled from the spec: `devops.CheckPlayload` (declared outside `src/`),
the minimal `{id, parameters, abort}` payload shape of §4.2.  `Parameters`
is a Go slice: `none` models a nil slice (field absent or JSON null),
`some l` a non-nil slice.  All three JSON tags carry `omitempty` — the spec
notes that re-serializing this struct would omit an empty parameters list,
which is why `getInputReqBody` synthesizes the `workRound` value instead. -/
structure CheckPlayload where
  ID : String
  Parameters : Option (List CheckPlayloadParameters)
  Abort : Bool
deriving DecidableEq, Repr

/-- The Go zero value `devops.CheckPlayload{}`. -/
def CheckPlayload.zero : CheckPlayload :=
  { ID := "", Parameters := none, Abort := false }

/-- What `json.Unmarshal` produced for the request body: a decoded payload,
or a parse error that leaves the target at its zero value. -/
inductive ParsedBody where
  | ok (p : CheckPlayload)
  | malformed (e : String)
deriving DecidableEq, Repr

/-- The JSON object written to the forwarded body, field by field;
`none` means the field is omitted from the serialization. -/
structure EncodedBody where
  id : Option String
  parameters : Option (List CheckPlayloadParameters)
  abort : Option Bool
deriving DecidableEq, Repr

/-- `json.Marshal` of a `CheckPlayload` under its `omitempty` tags: an empty
`id` is omitted, a nil or empty parameters slice is omitted, `abort` appears
only when true. -/
def marshalCheckPlayload (p : CheckPlayload) : EncodedBody :=
  { id := if p.ID = "" then none else some p.ID,
    parameters :=
      match p.Parameters with
      | none => none
      | some ps => if ps.isEmpty then none else some ps,
    abort := if p.Abort then some true else none }

/-- `json.Marshal` of the `workRound` struct (devops.go:1041-1045): `id` has
`omitempty`, `parameters` has no `omitempty` so the field is always present,
and `abort` (`omitempty`, never set) is omitted. -/
def marshalWorkRound (id : String) (params : List CheckPlayloadParameters) :
    EncodedBody :=
  { id := if id = "" then none else some id,
    parameters := some params,
    abort := none }

/-- `getInputReqBody` (devops.go:1038-1067).  `readResult` is what
`ioutil.ReadAll` + `json.Unmarshal` produced: `.error` when reading the body
failed (devops.go:1047-1051), otherwise the parse outcome.  Note
devops.go:1053: the `json.Unmarshal` error is assigned to `err` but never
examined, and the function ends with `return newReqBody, nil`
(devops.go:1065), so a malformed body proceeds with the zero payload. -/
def getInputReqBody (readResult : Except String ParsedBody) :
    Except String EncodedBody :=
  match readResult with
  | .error e => .error e
  | .ok parsed =>
    let checkBody :=
      match parsed with
      | .ok p => p
      | .malformed _ => CheckPlayload.zero
    if checkBody.Abort ≠ true ∧ checkBody.Parameters = none then
      .ok (marshalWorkRound checkBody.ID [])
    else
      .ok (marshalCheckPlayload checkBody)

/-- 101 nodes, one more than the channel capacity. -/
def manyNodes : List RunNode := List.replicate 101 { ID := "n" }


/-! ## Concrete fixtures used by counterexamples and witnesses -/

/-- A stored pipeline whose spec carries Jenkinsfile "X". -/
def storedPipeX : Pipeline :=
  { name := "p", ResourceVersion := "7", Annotations := [],
    Spec := { Pipeline := some { Jenkinsfile := "X" } } }

/-- A caller-supplied pipeline object whose payload omits the nested
pipeline spec section entirely. -/
def callerPipeNilSpec : Pipeline :=
  { name := "p", ResourceVersion := "", Annotations := [],
    Spec := { Pipeline := none } }

/-- A caller-supplied pipeline object that tries to smuggle in a different
Jenkinsfile. -/
def callerPipeEvil : Pipeline :=
  { name := "p", ResourceVersion := "", Annotations := [],
    Spec := { Pipeline := some { Jenkinsfile := "EVIL" } } }

/-- A stored pipeline whose spec has no nested pipeline section. -/
def storedPipeNoSpec : Pipeline :=
  { name := "p", ResourceVersion := "1", Annotations := [],
    Spec := { Pipeline := none } }

/-- A stored pipeline with spec Jenkinsfile "old" and no annotations. -/
def storedPipeOld : Pipeline :=
  { name := "p", ResourceVersion := "1", Annotations := [],
    Spec := { Pipeline := some { Jenkinsfile := "old" } } }

/-- An inbound POST request. -/
def postRequest : HttpRequest :=
  { Method := "POST", Header := [], Body := none, Url := "u" }

/-! ## Annotation-map lemmas -/

theorem getAnno_setAnno_self (m : List (String × String)) (k v : String) :
    getAnno (setAnno m k v) k = some v := by
  induction m with
  | nil => simp [setAnno, getAnno]
  | cons hd tl ih =>
    obtain ⟨k', v'⟩ := hd
    by_cases h : k' = k
    · simp [setAnno, getAnno, h]
    · simp [setAnno, getAnno, h, ih]

theorem getAnno_setAnno_ne (m : List (String × String)) (k v k2 : String)
    (h : k2 ≠ k) : getAnno (setAnno m k v) k2 = getAnno m k2 := by
  have hkk : ¬(k = k2) := fun hc => h hc.symm
  induction m with
  | nil => simp [setAnno, getAnno, hkk]
  | cons hd tl ih =>
    obtain ⟨k', v'⟩ := hd
    by_cases hk : k' = k
    · subst hk
      simp [setAnno, getAnno, hkk]
    · simp [setAnno, getAnno, hk, ih]

/-! ## Claim theorems -/

/-- C4 counterexample: the claim is false as stated.  With a stored pipeline
whose spec carries Jenkinsfile "X" and a caller object whose payload omits
the nested pipeline spec section (`Spec.Pipeline = nil`), `UpdatePipelineObj`
issues the update without copying the stored Jenkinsfile forward, and the
stored Jenkinsfile value after the update is absent instead of "X". -/
theorem updatePipelineObj_nil_spec_drops_jenkinsfile :
    UpdatePipelineObj (.ok ()) (.ok storedPipeX) callerPipeNilSpec =
      .ok { callerPipeNilSpec with ResourceVersion := "7" } ∧
    jenkinsfileValue { callerPipeNilSpec with ResourceVersion := "7" } ≠
      jenkinsfileValue storedPipeX := by
  exact ⟨rfl, by decide⟩

/-- C4 (amended): whenever both the caller's object and the stored pipeline
have a non-nil nested pipeline spec section, `UpdatePipelineObj` copies the
stored Jenkinsfile onto the caller's object before issuing the update, so the
stored Jenkinsfile value is unchanged by the update even when the caller set
a different one.  (When either section is nil the copy is skipped and the
caller's value — or its absence — is stored; see the counterexample.) -/
theorem updatePipelineObj_preserves_jenkinsfile (latest pipeline : Pipeline)
    (h1 : pipeline.Spec.Pipeline.isSome) (h2 : latest.Spec.Pipeline.isSome) :
    ∃ stored, UpdatePipelineObj (.ok ()) (.ok latest) pipeline = .ok stored ∧
      jenkinsfileValue stored = jenkinsfileValue latest := by
  obtain ⟨n1, rv1, a1, ⟨po1⟩⟩ := pipeline
  obtain ⟨n2, rv2, a2, ⟨po2⟩⟩ := latest
  cases po1 with
  | none => simp at h1
  | some sp =>
    cases po2 with
    | none => simp at h2
    | some lp => exact ⟨_, rfl, rfl⟩

/-- C4 witness: a concrete run of the amended theorem — the caller supplies
Jenkinsfile "EVIL", the stored pipeline holds "X", and the stored value after
the update is still "X". -/
theorem updatePipelineObj_preserves_jenkinsfile_witness :
    ∃ stored, UpdatePipelineObj (.ok ()) (.ok storedPipeX) callerPipeEvil =
        .ok stored ∧
      jenkinsfileValue stored = jenkinsfileValue storedPipeX :=
  updatePipelineObj_preserves_jenkinsfile storedPipeX callerPipeEvil
    (by decide) (by decide)

/-- C5 counterexample: the claim is false as stated.  For an existing
pipeline whose spec has no nested pipeline section, mode `raw` does not store
the content in the spec Jenkinsfile field (there is nowhere to put it): the
call succeeds, the written object's spec still has no Jenkinsfile value, and
the content "J" is not in the value annotation either. -/
theorem updateJenkinsfile_raw_nil_spec_drops_content :
    UpdateJenkinsfile storedPipeNoSpec PipelineJenkinsfileEditModeRaw "J" =
      (none, { storedPipeNoSpec with
               Annotations := [(PipelineJenkinsfileEditModeAnnoKey,
                               PipelineJenkinsfileEditModeRaw)] }) ∧
    jenkinsfileValue
        (UpdateJenkinsfile storedPipeNoSpec PipelineJenkinsfileEditModeRaw "J").2 ≠
      some "J" ∧
    getAnno (UpdateJenkinsfile storedPipeNoSpec
        PipelineJenkinsfileEditModeRaw "J").2.Annotations
        PipelineJenkinsfileValueAnnoKey ≠ some "J" := by
  exact ⟨rfl, by decide, by decide⟩

/-- C5 (amended): for every existing pipeline, `UpdateJenkinsfile` with mode
`json` stores the content in the Jenkinsfile-value annotation (also stamping
the edit-mode annotation) and leaves the spec untouched; with mode `raw` it
stores the content in the spec Jenkinsfile field provided the spec's nested
pipeline section is non-nil (otherwise the content is dropped — see the
counterexample and C10) and leaves the json value annotation untouched; with
any other mode it returns an invalid-argument error and performs no write, so
the stored object is unchanged. -/
theorem updateJenkinsfile_modes (stored : Pipeline) (mode content : String) :
    (mode = PipelineJenkinsfileEditModeJSON →
      ∃ p, UpdateJenkinsfile stored mode content = (none, p) ∧
        getAnno p.Annotations PipelineJenkinsfileValueAnnoKey = some content ∧
        getAnno p.Annotations PipelineJenkinsfileEditModeAnnoKey = some mode ∧
        p.Spec = stored.Spec) ∧
    (mode = PipelineJenkinsfileEditModeRaw →
      ∀ sp, stored.Spec.Pipeline = some sp →
      ∃ p, UpdateJenkinsfile stored mode content = (none, p) ∧
        p.Spec.Pipeline = some { sp with Jenkinsfile := content } ∧
        getAnno p.Annotations PipelineJenkinsfileValueAnnoKey =
          getAnno stored.Annotations PipelineJenkinsfileValueAnnoKey) ∧
    (mode ≠ PipelineJenkinsfileEditModeJSON →
      mode ≠ PipelineJenkinsfileEditModeRaw →
      UpdateJenkinsfile stored mode content =
        (some ("invalid edit mode: " ++ mode), stored)) := by
  refine ⟨?_, ?_, ?_⟩
  · rintro rfl
    refine ⟨_, rfl, getAnno_setAnno_self _ _ _, ?_, rfl⟩
    rw [getAnno_setAnno_ne _ _ _ _ (by decide)]
    exact getAnno_setAnno_self _ _ _
  · rintro rfl sp hsp
    obtain ⟨n, rv, annos, ⟨po⟩⟩ := stored
    change po = some sp at hsp
    subst hsp
    exact ⟨_, rfl, rfl, getAnno_setAnno_ne _ _ _ _ (by decide)⟩
  · intro hj hr
    simp only [UpdateJenkinsfile]
    rw [if_neg hj, if_neg hr]

/-- C5 witness: a concrete run of the amended theorem's json clause — the
content lands in the value annotation, the edit-mode annotation reads
`json`, and the spec is untouched. -/
theorem updateJenkinsfile_modes_witness :
    ∃ p, UpdateJenkinsfile storedPipeOld PipelineJenkinsfileEditModeJSON "C" =
        (none, p) ∧
      getAnno p.Annotations PipelineJenkinsfileValueAnnoKey = some "C" ∧
      getAnno p.Annotations PipelineJenkinsfileEditModeAnnoKey =
        some PipelineJenkinsfileEditModeJSON ∧
      p.Spec = storedPipeOld.Spec :=
  (updateJenkinsfile_modes storedPipeOld PipelineJenkinsfileEditModeJSON "C").1 rfl

/-- C10: for an existing pipeline whose spec has no nested pipeline section,
`UpdateJenkinsfile` with mode `raw` succeeds (no error), writes only the
edit-mode annotation, and stores the supplied content nowhere: the written
object's spec is unchanged and the value annotation is unchanged. -/
theorem updateJenkinsfile_raw_nil_spec_annotation_only
    (stored : Pipeline) (content : String) (h : stored.Spec.Pipeline = none) :
    UpdateJenkinsfile stored PipelineJenkinsfileEditModeRaw content =
      (none, { stored with
               Annotations := setAnno stored.Annotations
                 PipelineJenkinsfileEditModeAnnoKey PipelineJenkinsfileEditModeRaw }) ∧
    (UpdateJenkinsfile stored PipelineJenkinsfileEditModeRaw content).2.Spec =
      stored.Spec ∧
    getAnno (UpdateJenkinsfile stored
        PipelineJenkinsfileEditModeRaw content).2.Annotations
        PipelineJenkinsfileValueAnnoKey =
      getAnno stored.Annotations PipelineJenkinsfileValueAnnoKey ∧
    getAnno (UpdateJenkinsfile stored
        PipelineJenkinsfileEditModeRaw content).2.Annotations
        PipelineJenkinsfileEditModeAnnoKey = some PipelineJenkinsfileEditModeRaw := by
  obtain ⟨n, rv, annos, ⟨po⟩⟩ := stored
  change po = none at h
  subst h
  refine ⟨rfl, rfl, ?_, ?_⟩
  · exact getAnno_setAnno_ne _ _ _ _ (by decide)
  · exact getAnno_setAnno_self _ _ _

/-- C10 witness: a concrete pipeline without a nested pipeline spec section,
updated in raw mode with content "J": only the edit-mode annotation changes
and "J" is stored nowhere. -/
theorem updateJenkinsfile_raw_nil_spec_annotation_only_witness :
    UpdateJenkinsfile storedPipeNoSpec PipelineJenkinsfileEditModeRaw "J" =
      (none, { storedPipeNoSpec with
               Annotations := setAnno storedPipeNoSpec.Annotations
                 PipelineJenkinsfileEditModeAnnoKey PipelineJenkinsfileEditModeRaw }) ∧
    (UpdateJenkinsfile storedPipeNoSpec PipelineJenkinsfileEditModeRaw "J").2.Spec =
      storedPipeNoSpec.Spec ∧
    getAnno (UpdateJenkinsfile storedPipeNoSpec
        PipelineJenkinsfileEditModeRaw "J").2.Annotations
        PipelineJenkinsfileValueAnnoKey =
      getAnno storedPipeNoSpec.Annotations PipelineJenkinsfileValueAnnoKey ∧
    getAnno (UpdateJenkinsfile storedPipeNoSpec
        PipelineJenkinsfileEditModeRaw "J").2.Annotations
        PipelineJenkinsfileEditModeAnnoKey = some PipelineJenkinsfileEditModeRaw :=
  updateJenkinsfile_raw_nil_spec_annotation_only storedPipeNoSpec "J" rfl

/-- C8: the claim is right and the code is wrong.  When the resource-store
list call fails, `ListDevOpsProject` (devops.go:263-265) returns the zero
`api.ListResult` together with a nil error — the store error is swallowed
instead of being propagated, contradicting the propagation policy every
sibling list operation follows. -/
theorem listDevOpsProject_swallows_store_error :
    ListDevOpsProject (.error "boom") 10 0 =
      some ({ TotalItems := 0, Items := none }, none) := rfl

/-- C7: the claim is right and the code is wrong.  The loop at
devops.go:377-384 starts from `make([]runtime.Object, len(pipelines.Items))`
— a slice that already holds one nil entry per fetched pipeline — and then
appends the matching pipelines, so `DefaultList` receives a nil placeholder
for every fetched pipeline in addition to the matching entries.  Here one
fetched pipeline matching the type filter yields two entries, the first of
them nil. -/
theorem listPipelineObj_nil_placeholder :
    listPipelineObjCandidates [{ name := "p1", pType := "pipeline" }]
        (some "pipeline") =
      [none, some { name := "p1", pType := "pipeline" }] := by decide

/-- C9 counterexample: the claim is false as stated.  `ReplayPipeline`
(devops.go:520-529) and `ReplayBranchPipeline` (devops.go:692-701) contain no
method override: a caller using POST has POST forwarded, not PUT. -/
theorem replayPipeline_no_method_override :
    (replayPipelineParams postRequest).Method = "POST" ∧
    (replayBranchPipelineParams postRequest).Method ≠ MethodPut := by decide

/-- C9 (amended): for every inbound request, the stop-pipeline operations
(plain and branch variants) override the forwarded HTTP method to PUT and
the SCM-server listing operation overrides it to GET, regardless of the
caller's method; the replay operations (plain and branch variants) perform
no override and forward the caller's method unchanged. -/
theorem proxy_method_overrides (req : HttpRequest) :
    (stopPipelineParams req).Method = MethodPut ∧
    (stopBranchPipelineParams req).Method = MethodPut ∧
    (getSCMServersParams req).Method = MethodGet ∧
    (replayPipelineParams req).Method = req.Method ∧
    (replayBranchPipelineParams req).Method = req.Method :=
  ⟨rfl, rfl, rfl, rfl, rfl⟩

/-! ## Pagination lemmas for C3 -/

theorem wrap64_eq_self (x : Int) (h1 : -9223372036854775808 <= x)
    (h2 : x <= 9223372036854775807) : wrap64 x = x := by
  simp only [wrap64, int64Min]
  omega

/-- When the limit has been clamped to `count - offset` (computed with Go
int arithmetic) and the offset is in range for a Go slice, no wrap occurs
and the window is the whole suffix from `offset` on. -/
theorem listWindow_clamped (projects : List DevOpsProject) (offset : Int)
    (h0 : 0 <= offset) (hoc : offset <= (projects.length : Int))
    (hlen : (projects.length : Int) <= int64Max) :
    listWindow projects (goSub (projects.length : Int) offset) offset =
      some ({ TotalItems := projects.length,
              Items := some (projects.drop offset.toNat) }, none) := by
  simp only [int64Max] at hlen
  have hsub : goSub (projects.length : Int) offset =
      (projects.length : Int) - offset := by
    show wrap64 ((projects.length : Int) - offset) = _
    apply wrap64_eq_self <;> omega
  have hexact : offset + ((projects.length : Int) - offset) =
      (projects.length : Int) := by omega
  have hadd : goAdd offset ((projects.length : Int) - offset) =
      (projects.length : Int) := by
    show wrap64 (offset + ((projects.length : Int) - offset)) = _
    rw [hexact]
    apply wrap64_eq_self <;> omega
  rw [hsub]
  simp only [listWindow, hadd]
  rw [if_pos (by omega)]
  have htake : (projects.drop offset.toNat).take
      ((projects.length : Int) - offset).toNat = projects.drop offset.toNat := by
    apply List.take_of_length_le
    rw [List.length_drop]
    omega
  rw [htake]

/-- C3 counterexample: the claim is false as stated, in two ways.  First,
for a store holding one project, `offset = 2 > count = 1` makes the code
clamp `limit` to `count - offset = -1` and evaluate `result[2:1]`, an
out-of-range slice expression — a runtime panic (`none`), not an empty page.
Second, at `limit = 2^63 - 1, offset = 1, count = 1` the Go int sum
`limit+offset` wraps to `-2^63`, the clamp at devops.go:272 is skipped, and
`result[1 : 1+limit]` has a wrapped negative high bound — again a panic,
where the claim promises clamping. -/
theorem listDevOpsProject_offset_past_count_panics :
    ListDevOpsProject (.ok [{ name := "a" }]) 1 2 = none ∧
    ListDevOpsProject (.ok [{ name := "a" }]) 9223372036854775807 1 = none := by
  decide

/-- C3 (amended): for `0 ≤ offset ≤ count` (with `count` a valid Go slice
length, at most 2^63 - 1): `limit = -1` returns all items from `offset` on;
`offset + limit > count` with the exact sum representable (no int64
overflow) clamps the limit to `count - offset` and likewise returns all
items from `offset` on; and `offset = count` with a non-negative,
non-overflowing limit returns an empty, non-nil item list.  (For
`offset > count`, for a negative `limit ≠ -1` that escapes the clamp, and
for a `limit` that overflows `limit+offset` past 2^63 - 1 — which wraps, is
never clamped, and yields a negative slice bound — the slice expression
panics: see the counterexample.) -/
theorem listDevOpsProject_pagination (projects : List DevOpsProject)
    (limit offset : Int) (h0 : 0 <= offset)
    (hoc : offset <= (projects.length : Int))
    (hlen : (projects.length : Int) <= int64Max) :
    (limit = -1 →
      ListDevOpsProject (.ok projects) limit offset =
        some ({ TotalItems := projects.length,
                Items := some (projects.drop offset.toNat) }, none)) ∧
    (limit + offset > (projects.length : Int) → limit + offset <= int64Max →
      ListDevOpsProject (.ok projects) limit offset =
        some ({ TotalItems := projects.length,
                Items := some (projects.drop offset.toNat) }, none)) ∧
    (offset = (projects.length : Int) → 0 <= limit →
      limit + offset <= int64Max →
      ListDevOpsProject (.ok projects) limit offset =
        some ({ TotalItems := projects.length, Items := some [] }, none)) := by
  refine ⟨?_, ?_, ?_⟩
  · intro hl
    simp only [ListDevOpsProject]
    rw [if_pos (Or.inl hl)]
    exact listWindow_clamped projects offset h0 hoc hlen
  · intro hgt hov
    have hga : goAdd limit offset = limit + offset := by
      show wrap64 (limit + offset) = _
      simp only [int64Max] at hlen hov
      apply wrap64_eq_self <;> omega
    simp only [ListDevOpsProject]
    rw [if_pos (Or.inr (by rw [hga]; exact hgt))]
    exact listWindow_clamped projects offset h0 hoc hlen
  · intro ho hl hov
    by_cases hpos : 0 < limit
    · have hgt : limit + offset > (projects.length : Int) := by omega
      have hga : goAdd limit offset = limit + offset := by
        show wrap64 (limit + offset) = _
        simp only [int64Max] at hlen hov
        apply wrap64_eq_self <;> omega
      simp only [ListDevOpsProject]
      rw [if_pos (Or.inr (by rw [hga]; exact hgt))]
      rw [listWindow_clamped projects offset h0 hoc hlen]
      have hdrop : projects.drop offset.toNat = [] :=
        List.drop_eq_nil_of_le (by omega)
      rw [hdrop]
    · have hl0 : limit = 0 := by omega
      subst hl0
      have hga : goAdd 0 offset = offset := by
        show wrap64 (0 + offset) = _
        rw [Int.zero_add]
        simp only [int64Max] at hlen
        apply wrap64_eq_self <;> omega
      simp only [ListDevOpsProject]
      rw [if_neg (by
        rintro (hc | hc)
        · omega
        · rw [hga] at hc
          omega)]
      have hga2 : goAdd offset 0 = offset := by
        show wrap64 (offset + 0) = _
        rw [Int.add_zero]
        simp only [int64Max] at hlen
        apply wrap64_eq_self <;> omega
      simp only [listWindow, hga2]
      rw [if_pos (by omega)]
      have hdrop : projects.drop offset.toNat = [] :=
        List.drop_eq_nil_of_le (by omega)
      rw [hdrop]
      simp

/-- C3 witness: two stored projects, `limit = -1`, `offset = 1`: the call
returns the one remaining item in a non-nil list with total count 2. -/
theorem listDevOpsProject_pagination_witness :
    ListDevOpsProject (.ok [{ name := "a" }, { name := "b" }]) (-1) 1 =
      some ({ TotalItems := 2, Items := some [{ name := "b" }] }, none) :=
  (listDevOpsProject_pagination [{ name := "a" }, { name := "b" }] (-1) 1
    (by decide) (by decide) (by decide)).1 rfl

/-- C6 counterexample: the claim is false as stated, in two ways.  First, a
body that is not valid JSON does not fail: the `json.Unmarshal` error at
devops.go:1053 is never examined and the function returns the zero payload
rewritten to `{"parameters":[]}` with a nil error.  Second, a payload with an
explicitly empty parameters list (`{"id":"5","parameters":[]}`) is *not*
rewritten (the code tests `Parameters == nil`, and an explicit `[]`
unmarshals to a non-nil empty slice): it is re-serialized through the
`omitempty` tags, which drop the empty list entirely. -/
theorem getInputReqBody_parse_error_swallowed :
    getInputReqBody (.ok (.malformed "unexpected end of JSON input")) =
      .ok { id := none, parameters := some [], abort := none } ∧
    getInputReqBody (.ok (.ok { ID := "5", Parameters := some [], Abort := false })) =
      .ok { id := some "5", parameters := none, abort := none } := ⟨rfl, rfl⟩

/-- C6 (amended): for a successfully read and parsed payload with `abort`
false (or absent) and a nil `parameters` slice (field absent or null — but
not an explicitly empty list, which escapes the rewrite and is re-serialized
with the empty field dropped), the forwarded body is the synthesized
`{id, parameters: []}` with an explicit empty list; any other parsed payload
(for example `abort = true`) is re-serialized from the parsed struct under
its `omitempty` tags, preserving `abort = true`; and a body read error is
returned unchanged.  (A parse error is *not* returned — see the
counterexample.) -/
theorem getInputReqBody_rewrite (payload : CheckPlayload) (e : String) :
    (payload.Abort = false → payload.Parameters = none →
      getInputReqBody (.ok (.ok payload)) =
        .ok { id := if payload.ID = "" then none else some payload.ID,
              parameters := some [], abort := none }) ∧
    (payload.Abort = true ∨ payload.Parameters ≠ none →
      getInputReqBody (.ok (.ok payload)) = .ok (marshalCheckPlayload payload)) ∧
    (payload.Abort = true → (marshalCheckPlayload payload).abort = some true) ∧
    getInputReqBody (.error e) = .error e := by
  refine ⟨?_, ?_, ?_, rfl⟩
  · intro h1 h2
    simp only [getInputReqBody]
    rw [if_pos ⟨by simp [h1], h2⟩]
    rfl
  · intro h
    simp only [getInputReqBody]
    rw [if_neg ?hneg]
    case hneg =>
      rintro ⟨ha, hp⟩
      rcases h with h | h
      · exact ha h
      · exact h hp
  · intro h
    simp [marshalCheckPlayload, h]

/-- C6 witness: the spec's own test vector — payload id "5", no parameters,
abort false — is rewritten to a body with id "5" and an explicit empty
parameters list, with no error. -/
theorem getInputReqBody_rewrite_witness :
    getInputReqBody (.ok (.ok { ID := "5", Parameters := none, Abort := false })) =
      .ok { id := some "5", parameters := some [], abort := none } :=
  (getInputReqBody_rewrite { ID := "5", Parameters := none, Abort := false } "e").1
    rfl rfl

/-- C2: the claim is right and the code is wrong.  When the step fetch for a
node fails, the worker goroutine at devops.go:633-643 logs and returns
*before* calling `wg.Done()` (the `return` at devops.go:638 precedes both the
channel send and `wg.Done()`), so the `wg.Wait()` at devops.go:646 blocks
forever: `GetNodesDetail` never returns at all, instead of returning the full
node list with an empty step list for the failed node and a nil error.  Here:
a successful node listing with one node, "node-1", whose step fetch fails
— the call deadlocks under *every* channel-delivery order (the drain loop is
never reached), so the divergence is not an artifact of one schedule. -/
theorem getNodesDetail_step_failure_deadlock (deliv : List (Nat × List RunStep)) :
    GetNodesDetail (.ok [{ ID := "node-1" }]) (fun _ => none) deliv =
      .deadlock := by
  simp only [GetNodesDetail]
  rw [if_neg]
  rintro ⟨hall, -⟩
  have hmem := hall { ID := "node-1" } (List.mem_cons_self _ _)
  simp at hmem

/-- C1 counterexample: the claim is false as stated.  With 101 nodes — one
more than the result channel's capacity of 100 — every step fetch succeeding,
the 101st channel send can never be buffered and no receiver runs until
`wg.Wait()` returns, so one worker blocks on the send forever, never calls
`wg.Done()`, and the call deadlocks instead of returning 101 entries.
(`deliv` is irrelevant: the drain loop is never reached.) -/
theorem getNodesDetail_overflow_deadlock :
    manyNodes.length = 101 ∧
    GetNodesDetail (.ok manyNodes) (fun _ => some [])
      (sentPairs (fun _ => some []) manyNodes) = .deadlock := by decide

/-! ## Fan-out assembly lemmas for C1 -/

theorem appendStepsAt_isSome (ds : List NodesDetail) (i : Nat) (s : List RunStep)
    (h : i < ds.length) : ∃ ds2, appendStepsAt ds i s = some ds2 := by
  induction ds generalizing i with
  | nil => simp at h
  | cons d rest ih =>
    cases i with
    | zero => exact ⟨_, rfl⟩
    | succ i =>
      obtain ⟨ds2, hds2⟩ := ih i (by simp at h; omega)
      exact ⟨d :: ds2, by simp [appendStepsAt, hds2]⟩

theorem appendStepsAt_length (ds : List NodesDetail) (i : Nat) (s : List RunStep)
    (ds2 : List NodesDetail) (h : appendStepsAt ds i s = some ds2) :
    ds2.length = ds.length := by
  induction ds generalizing i ds2 with
  | nil => simp [appendStepsAt] at h
  | cons d rest ih =>
    cases i with
    | zero =>
      simp only [appendStepsAt, Option.some.injEq] at h
      subst h
      simp
    | succ i =>
      simp only [appendStepsAt, Option.map_eq_some'] at h
      obtain ⟨r, hr, hds2⟩ := h
      subst hds2
      simp [ih i r hr]

theorem appendStepsAt_getElem? (ds : List NodesDetail) (i : Nat) (s : List RunStep)
    (ds2 : List NodesDetail) (h : appendStepsAt ds i s = some ds2) (j : Nat) :
    ds2[j]? = if j = i then ds[j]?.map (fun d => { d with Steps := d.Steps ++ s })
              else ds[j]? := by
  induction ds generalizing i ds2 j with
  | nil => simp [appendStepsAt] at h
  | cons d rest ih =>
    cases i with
    | zero =>
      simp only [appendStepsAt, Option.some.injEq] at h
      subst h
      cases j with
      | zero => simp
      | succ j => simp
    | succ i =>
      simp only [appendStepsAt, Option.map_eq_some'] at h
      obtain ⟨r, hr, hds2⟩ := h
      subst hds2
      cases j with
      | zero => simp
      | succ j =>
        simp only [List.getElem?_cons_succ]
        rw [ih i r hr j]
        by_cases hj : j = i
        · rw [if_pos hj, if_pos (by omega)]
        · rw [if_neg hj, if_neg (by omega)]

theorem drainChannel_spec (deliv : List (Nat × List RunStep)) (ds : List NodesDetail)
    (hb : ∀ p ∈ deliv, p.1 < ds.length) :
    ∃ ds2, drainChannel ds deliv = some ds2 ∧ ds2.length = ds.length ∧
      ∀ j : Nat, ds2[j]? =
        ds[j]?.map (fun d => { d with Steps := d.Steps ++ deliveredAt j deliv }) := by
  induction deliv generalizing ds with
  | nil =>
    refine ⟨ds, rfl, rfl, ?_⟩
    intro j
    cases h : ds[j]? with
    | none => simp
    | some d => simp [deliveredAt]
  | cons p rest ih =>
    obtain ⟨i, s⟩ := p
    have hi : i < ds.length := hb (i, s) (by simp)
    obtain ⟨ds1, hds1⟩ := appendStepsAt_isSome ds i s hi
    have hlen1 : ds1.length = ds.length := appendStepsAt_length ds i s ds1 hds1
    have hb1 : ∀ q ∈ rest, q.1 < ds1.length := by
      intro q hq
      rw [hlen1]
      exact hb q (List.mem_cons_of_mem _ hq)
    obtain ⟨ds2, hds2, hlen2, hchar⟩ := ih ds1 hb1
    refine ⟨ds2, ?_, by rw [hlen2, hlen1], ?_⟩
    · simp only [drainChannel, hds1]
      exact hds2
    · intro j
      rw [hchar j, appendStepsAt_getElem? ds i s ds1 hds1 j]
      by_cases hj : j = i
      · subst hj
        rw [if_pos rfl]
        cases h : ds[j]? with
        | none => simp [deliveredAt]
        | some d => simp [deliveredAt]
      · have hij : ¬i = j := fun hc => hj hc.symm
        rw [if_neg hj]
        cases h : ds[j]? with
        | none => simp [deliveredAt, hij]
        | some d => simp [deliveredAt, hij]

theorem sentPairsFrom_mem_lt (fetchSteps : String → Option (List RunStep))
    (nodes : List RunNode) : ∀ (k : Nat) (p : Nat × List RunStep),
    p ∈ sentPairsFrom fetchSteps k nodes → k ≤ p.1 ∧ p.1 < k + nodes.length := by
  induction nodes with
  | nil =>
    intro k p hp
    simp [sentPairsFrom] at hp
  | cons n rest ih =>
    intro k p hp
    cases hf : fetchSteps n.ID with
    | some s =>
      simp only [sentPairsFrom, hf, List.mem_cons] at hp
      rcases hp with rfl | hp
      · refine ⟨Nat.le_refl _, ?_⟩
        show k < k + (n :: rest).length
        simp only [List.length_cons]
        omega
      · obtain ⟨h1, h2⟩ := ih (k + 1) p hp
        refine ⟨by omega, ?_⟩
        simp only [List.length_cons]
        omega
    | none =>
      simp only [sentPairsFrom, hf] at hp
      obtain ⟨h1, h2⟩ := ih (k + 1) p hp
      refine ⟨by omega, ?_⟩
      simp only [List.length_cons]
      omega

theorem sentPairsFrom_filter_lt (fetchSteps : String → Option (List RunStep))
    (nodes : List RunNode) (k i : Nat) (hik : i < k) :
    (sentPairsFrom fetchSteps k nodes).filter (fun p => p.1 == i) = [] := by
  rw [List.filter_eq_nil_iff]
  intro p hp
  have h1 := (sentPairsFrom_mem_lt fetchSteps nodes k p hp).1
  simp only [beq_iff_eq]
  omega

theorem sentPairsFrom_filter_eq (fetchSteps : String → Option (List RunStep))
    (nodes : List RunNode) : ∀ (k i : Nat) (h : i < nodes.length),
    (∀ n ∈ nodes, (fetchSteps n.ID).isSome) →
    (sentPairsFrom fetchSteps k nodes).filter (fun p => p.1 == k + i) =
      [(k + i, (fetchSteps (nodes.get ⟨i, h⟩).ID).getD [])] := by
  induction nodes with
  | nil =>
    intro k i h hall
    simp at h
  | cons n rest ih =>
    intro k i h hall
    have hn : (fetchSteps n.ID).isSome := hall n (List.mem_cons_self n rest)
    obtain ⟨s, hs⟩ := Option.isSome_iff_exists.mp hn
    simp only [sentPairsFrom, hs]
    cases i with
    | zero =>
      simp only [Nat.add_zero]
      rw [List.filter_cons_of_pos (by simp)]
      rw [sentPairsFrom_filter_lt fetchSteps rest (k + 1) k (by omega)]
      simp [hs]
    | succ i =>
      rw [List.filter_cons_of_neg (by simp)]
      have harith : k + (i + 1) = (k + 1) + i := by omega
      rw [harith]
      have hh : i < rest.length := by
        simp only [List.length_cons] at h
        omega
      rw [ih (k + 1) i hh (fun m hm => hall m (List.mem_cons_of_mem n hm))]
      simp

theorem deliveredAt_eq_filter (j : Nat) (l : List (Nat × List RunStep)) :
    deliveredAt j l = ((l.filter (fun p => p.1 == j)).map Prod.snd).flatten := by
  induction l with
  | nil => rfl
  | cons p rest ih =>
    simp only [deliveredAt, List.filter_cons]
    by_cases hp : (p.1 == j) = true
    · rw [if_pos hp, if_pos hp]
      simp [ih]
    · rw [if_neg hp, if_neg hp]
      exact ih

/-- C1 (amended): for every node list of length N with N at most the channel
capacity of 100 and every step fetch succeeding (failed fetches never reach
the assembly: they deadlock the call — see C2), `GetNodesDetail` returns
exactly N detail entries, and the entry at position i carries the node at
position i together with the steps fetched for that node's identifier,
regardless of the order in which the `(index, steps)` pairs are delivered on
the channel (any permutation of the sent pairs).  For N > 100 the call
deadlocks — see the counterexample. -/
theorem getNodesDetail_ordered (nodes : List RunNode)
    (fetchSteps : String → Option (List RunStep))
    (deliv : List (Nat × List RunStep))
    (hall : ∀ n ∈ nodes, (fetchSteps n.ID).isSome)
    (hcap : nodes.length ≤ channelMaxCapacity)
    (hperm : deliv.Perm (sentPairs fetchSteps nodes)) :
    ∃ ds, GetNodesDetail (.ok nodes) fetchSteps deliv = .ok ds ∧
      ds.length = nodes.length ∧
      ∀ (i : Nat) (h : i < nodes.length),
        ds[i]? = some { node := nodes.get ⟨i, h⟩,
                        Steps := (fetchSteps (nodes.get ⟨i, h⟩).ID).getD [] } := by
  have hperm0 : deliv.Perm (sentPairsFrom fetchSteps 0 nodes) := hperm
  have hb : ∀ p ∈ deliv,
      p.1 < (nodes.map fun n => ({ node := n, Steps := [] } : NodesDetail)).length := by
    intro p hp
    have hmem : p ∈ sentPairsFrom fetchSteps 0 nodes := hperm0.mem_iff.mp hp
    have h2 := (sentPairsFrom_mem_lt fetchSteps nodes 0 p hmem).2
    simp only [List.length_map]
    omega
  obtain ⟨ds2, hdrain, hlen, hchar⟩ := drainChannel_spec deliv _ hb
  refine ⟨ds2, ?_, ?_, ?_⟩
  · simp only [GetNodesDetail]
    rw [if_pos ⟨hall, hcap⟩, hdrain]
  · rw [hlen, List.length_map]
  · intro i h
    have hfilter : deliv.filter (fun p => p.1 == i) =
        [(i, (fetchSteps (nodes.get ⟨i, h⟩).ID).getD [])] := by
      have hpf := List.Perm.filter (fun p => p.1 == i) hperm0
      have hsp := sentPairsFrom_filter_eq fetchSteps nodes 0 i h hall
      rw [Nat.zero_add] at hsp
      rw [hsp] at hpf
      exact List.perm_singleton.mp hpf
    have hdel : deliveredAt i deliv =
        (fetchSteps (nodes.get ⟨i, h⟩).ID).getD [] := by
      rw [deliveredAt_eq_filter, hfilter]
      simp
    rw [hchar i, List.getElem?_map, List.getElem?_eq_getElem h]
    simp [hdel]

/-- C1 witness: two nodes "a"/"b", steps delivered in reverse order of the
nodes: the result still pairs entry 0 with node "a" and its steps, entry 1
with node "b" and its steps. -/
theorem getNodesDetail_ordered_witness :
    ∃ ds, GetNodesDetail (.ok [{ ID := "a" }, { ID := "b" }])
        (fun id => some [{ ID := id }])
        [(1, [{ ID := "b" }]), (0, [{ ID := "a" }])] = .ok ds ∧
      ds.length = [RunNode.mk "a", RunNode.mk "b"].length ∧
      ∀ (i : Nat) (h : i < [RunNode.mk "a", RunNode.mk "b"].length),
        ds[i]? = some { node := [RunNode.mk "a", RunNode.mk "b"].get ⟨i, h⟩,
                        Steps := ((fun id => some [RunStep.mk id])
                          ([RunNode.mk "a", RunNode.mk "b"].get ⟨i, h⟩).ID).getD [] } :=
  getNodesDetail_ordered [{ ID := "a" }, { ID := "b" }]
    (fun id => some [{ ID := id }]) [(1, [{ ID := "b" }]), (0, [{ ID := "a" }])]
    (by decide) (by decide) (by decide)

end KsDevops
